import Mathlib

/-!
Shallow embedding of the Winter trading engine (C++ sources) in Lean 4.

Conventions of the embedding:
* C++ `double` is modelled as `ℚ` (exact arithmetic; no floating-point rounding).
* C++ `int` / `int64_t` are modelled as `ℤ`, `size_t` as `ℕ`.
* `std::unordered_map<std::string, Position>` is modelled as `String → Option Position`
  (pointwise lookup/update, exactly the operations the source performs).
* Wall-clock timestamps (the `trade.timestamp` string produced from `std::localtime`)
  are omitted: no claim mentions them and they are not a function of the inputs.
* The lock-free SPSC ring (`include/winter/utils/lock_free_queue.hpp`) is embedded
  state-passing style; the concurrent loops of `engine.cpp` are embedded as the
  sequential functions each worker iteration computes.
-/

namespace Winter

/-- Signal kinds, from `include/winter/core/signal.hpp`. -/
inductive SignalType
  | BUY
  | SELL
  | EXIT
  | NEUTRAL
deriving DecidableEq

/-- Signal record, from `include/winter/core/signal.hpp`. -/
structure Signal where
  symbol : String
  type : SignalType
  strength : ℚ
  price : ℚ

/-- Order side, from `include/winter/core/order.hpp`. -/
inductive OrderSide
  | BUY
  | SELL

/-- Order type, from `include/winter/core/order.hpp`. -/
inductive OrderType
  | MARKET
  | LIMIT

/-- Order record, from `include/winter/core/order.hpp`. -/
structure Order where
  symbol : String
  side : OrderSide
  type : OrderType
  quantity : ℤ
  price : ℚ

/-- Tick record, from `include/winter/core/market_data.hpp`. -/
structure MarketData where
  symbol : String
  price : ℚ
  volume : ℤ
  timestamp : ℤ

/-- Position record, from `include/winter/core/portfolio.hpp`. -/
structure Position where
  quantity : ℤ
  cost : ℚ

/-- Trade record, from `include/winter/core/portfolio.hpp`
(the wall-clock `timestamp` string is omitted, see module comment). -/
structure Trade where
  symbol : String
  side : String
  quantity : ℤ
  price : ℚ
  cost : ℚ
  profit : ℚ

/-- Portfolio state, from `include/winter/core/portfolio.hpp` /
`src/winter/core/portfolio.cpp`. -/
structure Portfolio where
  cash : ℚ
  positions : String → Option Position
  trades : List Trade
  trade_count : ℤ

/-- Fresh portfolio: `Portfolio::Portfolio()` sets `cash_ = 0`, `trade_count_ = 0`. -/
def Portfolio.init : Portfolio :=
  { cash := 0, positions := fun _ => none, trades := [], trade_count := 0 }

/-- `Portfolio::set_cash`. -/
def Portfolio.set_cash (p : Portfolio) (amount : ℚ) : Portfolio :=
  { p with cash := amount }

/-- `Portfolio::add_cash`. -/
def Portfolio.add_cash (p : Portfolio) (amount : ℚ) : Portfolio :=
  { p with cash := p.cash + amount }

/-- `Portfolio::reduce_cash` (the negative-balance warning has no state effect). -/
def Portfolio.reduce_cash (p : Portfolio) (amount : ℚ) : Portfolio :=
  { p with cash := p.cash - amount }

/-- `Portfolio::get_position`: quantity of the symbol's position, 0 when absent. -/
def Portfolio.get_position (p : Portfolio) (symbol : String) : ℤ :=
  match p.positions symbol with
  | some pos => pos.quantity
  | none => 0

/-- `Portfolio::get_position_cost`: total cost of the symbol's position, 0 when absent. -/
def Portfolio.get_position_cost (p : Portfolio) (symbol : String) : ℚ :=
  match p.positions symbol with
  | some pos => pos.cost
  | none => 0

/-- `Portfolio::add_position` (portfolio.cpp lines 45-79): merge the lot into the
position map, append a BUY trade with `price = cost/quantity` and zero profit,
increment `trade_count_`. -/
def Portfolio.add_position (p : Portfolio) (symbol : String) (quantity : ℤ) (cost : ℚ) :
    Portfolio :=
  let positions : String → Option Position := fun s =>
    if s = symbol then
      match p.positions symbol with
      | some pos => some { quantity := pos.quantity + quantity, cost := pos.cost + cost }
      | none => some { quantity := quantity, cost := cost }
    else p.positions s
  let trade : Trade :=
    { symbol := symbol, side := "BUY", quantity := quantity,
      price := cost / (quantity : ℚ), cost := cost, profit := 0 }
  { p with positions := positions, trades := p.trades ++ [trade],
           trade_count := p.trade_count + 1 }

/-- `Portfolio::reduce_position` (portfolio.cpp lines 81-121).  When the symbol is
present: `proportion = quantity / position.quantity`, `cost_basis = cost * proportion`,
a SELL trade is appended whose `price` is `cash_ / quantity` (the source comment says
"Use current cash as an approximation of sale price") and whose `profit` is
`trade.price * quantity - cost_basis`; the position is reduced and erased when its
quantity reaches zero.  When the symbol is absent only a warning is logged.  In both
branches `trade_count_` is incremented (the increment sits after the if/else). -/
def Portfolio.reduce_position (p : Portfolio) (symbol : String) (quantity : ℤ) :
    Portfolio :=
  match p.positions symbol with
  | some pos =>
    let proportion : ℚ := (quantity : ℚ) / (pos.quantity : ℚ)
    let cost_basis : ℚ := pos.cost * proportion
    let trade : Trade :=
      { symbol := symbol, side := "SELL", quantity := quantity,
        price := p.cash / (quantity : ℚ), cost := cost_basis,
        profit := (p.cash / (quantity : ℚ)) * (quantity : ℚ) - cost_basis }
    let newQuantity := pos.quantity - quantity
    let newCost := pos.cost - cost_basis
    let positions : String → Option Position := fun s =>
      if s = symbol then
        if newQuantity ≤ 0 then none
        else some { quantity := newQuantity, cost := newCost }
      else p.positions s
    { p with positions := positions, trades := p.trades ++ [trade],
             trade_count := p.trade_count + 1 }
  | none =>
    { p with trade_count := p.trade_count + 1 }

/-- `Portfolio::total_value`: cash plus the summed recorded cost of the open
positions (mark-to-cost); stated over an explicit symbol list since the map is a
function. -/
def Portfolio.total_value (p : Portfolio) (symbols : List String) : ℚ :=
  p.cash + (symbols.map fun s => p.get_position_cost s).sum

/-- Truncation of `static_cast<int>(double)` in C++: rounding toward zero. -/
def intTrunc (x : ℚ) : ℤ :=
  if x < 0 then -Int.floor (-x) else Int.floor x

/-- Signal-to-order conversion performed by `Engine::strategy_loop`
(engine.cpp lines 149-188) for one signal: non-NEUTRAL signals are examined;
a BUY signal is sized from 10% of cash (`max_position = cash * 0.1`,
`quantity = static_cast<int>(max_position / price)`) and produces an order only when
the quantity is positive; a SELL signal produces an order for the whole current
position only when that position is positive.  Any other kind (EXIT) matches
neither branch of the if/else-if chain and produces no order. -/
def signalToOrder (portfolio : Portfolio) (signal : Signal) : Option Order :=
  if signal.type ≠ SignalType.NEUTRAL then
    if signal.type = SignalType.BUY then
      let max_position := portfolio.cash * (1 / 10 : ℚ)
      let quantity : ℤ := intTrunc (max_position / signal.price)
      if 0 < quantity then
        some { symbol := signal.symbol, side := OrderSide.BUY, type := OrderType.MARKET,
               quantity := quantity, price := signal.price }
      else none
    else if signal.type = SignalType.SELL then
      let position := portfolio.get_position signal.symbol
      if 0 < position then
        some { symbol := signal.symbol, side := OrderSide.SELL, type := OrderType.MARKET,
               quantity := position, price := signal.price }
      else none
    else none
  else none

/-- One order applied by `Engine::execution_loop` (engine.cpp lines 223-291).
Returns the updated portfolio and the order passed to the fill callback
(`none` when no fill happened).  BUY: executed only when `cash ≥ cost`, deducting
cash then adding the position.  SELL: full fill when `position ≥ quantity`
(proceeds added, then position reduced); partial fill for the available position
when `0 < position < quantity`, with the callback receiving the modified order;
silently dropped when there is no position. -/
def applyOrder (p : Portfolio) (o : Order) : Portfolio × Option Order :=
  match o.side with
  | OrderSide.BUY =>
    let cost := o.price * (o.quantity : ℚ)
    if cost ≤ p.cash then
      ((p.reduce_cash cost).add_position o.symbol o.quantity cost, some o)
    else (p, none)
  | OrderSide.SELL =>
    let position := p.get_position o.symbol
    if o.quantity ≤ position then
      let proceeds := o.price * (o.quantity : ℚ)
      ((p.add_cash proceeds).reduce_position o.symbol o.quantity, some o)
    else if 0 < position then
      let modified : Order := { o with quantity := position }
      let proceeds := modified.price * (modified.quantity : ℚ)
      ((p.add_cash proceeds).reduce_position modified.symbol modified.quantity,
       some modified)
    else (p, none)

/-- Portfolio state after the execution worker applies a sequence of popped orders. -/
def applyOrders (p : Portfolio) (orders : List Order) : Portfolio :=
  orders.foldl (fun acc o => (applyOrder acc o).1) p

/-- Batch-collection loop of `Engine::strategy_loop` (engine.cpp lines 132-137):
`while (market_data_queue_.pop(data) && data_batch.size() < config_.batch_size)
  data_batch.push_back(data);`
The ring is abstracted to the FIFO list of ticks it will deliver; each loop-condition
evaluation first pops (when the queue is nonempty) and only then checks the batch
size, so a tick popped while the batch is already full is dropped on the floor.
Returns the collected batch and the ticks left in the queue. -/
def collectBatch (batchSize : ℕ) :
    List MarketData → List MarketData → List MarketData × List MarketData
  | [], batch => (batch, [])
  | d :: rest, batch =>
    if batch.length < batchSize then collectBatch batchSize rest (batch ++ [d])
    else (batch, rest)

/-- Bounded SPSC ring, from `include/winter/utils/lock_free_queue.hpp`.
`buffer` and `occupied` are the two `std::array`s of length `N`; `head` and `tail`
are slot indices (the source advances them modulo `Capacity`). -/
structure LockFreeQueue (α : Type) (N : ℕ) where
  buffer : List α
  occupied : List Bool
  head : ℕ
  tail : ℕ

/-- Freshly constructed ring: both indices 0, all ready flags false. -/
def LockFreeQueue.init (α : Type) [Inhabited α] (N : ℕ) : LockFreeQueue α N :=
  { buffer := List.replicate N default, occupied := List.replicate N false,
    head := 0, tail := 0 }

/-- `LockFreeQueue::push` (lock_free_queue.hpp lines 26-43): compute
`next_tail = (tail + 1) % Capacity`; reject when `next_tail == head`; otherwise
store the item, set the ready flag and advance `tail`. -/
def LockFreeQueue.push {α : Type} {N : ℕ} (q : LockFreeQueue α N) (item : α) :
    LockFreeQueue α N × Bool :=
  let current_tail := q.tail
  let next_tail := (current_tail + 1) % N
  if next_tail = q.head then (q, false)
  else
    ({ buffer := q.buffer.set current_tail item,
       occupied := q.occupied.set current_tail true,
       head := q.head, tail := next_tail }, true)

/-- `LockFreeQueue::pop` (lock_free_queue.hpp lines 45-66): empty when
`head == tail`; not ready when the head slot's flag is clear; otherwise read the
slot, clear the flag and advance `head`. -/
def LockFreeQueue.pop {α : Type} [Inhabited α] {N : ℕ} (q : LockFreeQueue α N) :
    LockFreeQueue α N × Option α :=
  if q.head = q.tail then (q, none)
  else if q.occupied.getD q.head false = false then (q, none)
  else
    ({ buffer := q.buffer, occupied := q.occupied.set q.head false,
       head := (q.head + 1) % N, tail := q.tail },
     some (q.buffer.getD q.head default))

/-- `LockFreeQueue::size` (lock_free_queue.hpp lines 73-82). -/
def LockFreeQueue.size {α : Type} {N : ℕ} (q : LockFreeQueue α N) : ℕ :=
  if q.head ≤ q.tail then q.tail - q.head else N - q.head + q.tail

/-- Push a list of items one after the other (a producer pushing back-to-back),
returning the final ring and the accepted/rejected result of every push. -/
def LockFreeQueue.pushAll {α : Type} {N : ℕ} (q : LockFreeQueue α N) :
    List α → LockFreeQueue α N × List Bool
  | [] => (q, [])
  | x :: rest =>
    let step := q.push x
    let next := step.1.pushAll rest
    (next.1, step.2 :: next.2)

/-- Lookback constants of the stat-arb core, from `strategies/stat_arbitrage.hpp`
(SHORT_LOOKBACK = 3, MEDIUM_LOOKBACK = 5, LONG_LOOKBACK = 10). -/
def SHORT_LOOKBACK : ℕ := 3

/-- Medium lookback window of the stat-arb core. -/
def MEDIUM_LOOKBACK : ℕ := 5

/-- Long lookback window of the stat-arb core. -/
def LONG_LOOKBACK : ℕ := 10

/-- Per-pair state of the stat-arb core, from `strategies/stat_arbitrage.hpp`
`struct PairData` (lines 154-196), restricted to the fields the spread/statistics
path touches.  The source stores `spread_std_medium = sqrt(variance)`; since the
square root is irrational we carry the variance (its square), which determines it.
`beta` is the hedge ratio, member-initialized to `1.0` (line 165). -/
structure PairData where
  beta : ℚ
  spread_history_short : List ℚ
  spread_history_medium : List ℚ
  spread_history_long : List ℚ
  spread_mean_medium : ℚ
  spread_var_medium : ℚ
  position1 : ℤ
  position2 : ℤ

/-- A `PairData` as member-initialized by the source: `beta = 1.0`, empty windows,
zero statistics and flat positions. -/
def initPairData : PairData :=
  { beta := 1, spread_history_short := [], spread_history_medium := [],
    spread_history_long := [], spread_mean_medium := 0, spread_var_medium := 0,
    position1 := 0, position2 := 0 }

/-- One bounded window update: `push_back(spread)` then `pop_front()` when the
size exceeds the lookback (from `update_spread_history`). -/
def pushWindow (history : List ℚ) (spread : ℚ) (lookback : ℕ) : List ℚ :=
  let h := history ++ [spread]
  if lookback < h.length then h.tail else h

/-- `update_spread_history` (stat_arbitrage.hpp lines 1180-1198): push the new
spread onto the short, medium and long windows, each bounded by its lookback. -/
def update_spread_history (pd : PairData) (spread : ℚ) : PairData :=
  { pd with
    spread_history_short := pushWindow pd.spread_history_short spread SHORT_LOOKBACK,
    spread_history_medium := pushWindow pd.spread_history_medium spread MEDIUM_LOOKBACK,
    spread_history_long := pushWindow pd.spread_history_long spread LONG_LOOKBACK }

/-- `calculate_spread_statistics` (stat_arbitrage.hpp lines 1200-1214): when the
medium window is full, recompute its mean and (the square of) its standard
deviation; nothing else is touched. -/
def calculate_spread_statistics (pd : PairData) : PairData :=
  if MEDIUM_LOOKBACK ≤ pd.spread_history_medium.length then
    let n : ℚ := (pd.spread_history_medium.length : ℚ)
    let mean := pd.spread_history_medium.sum / n
    let sum_sq := (pd.spread_history_medium.map fun s => (s - mean) * (s - mean)).sum
    { pd with spread_mean_medium := mean, spread_var_medium := sum_sq / n }
  else pd

/-- Spread-processing step of `process_data_internal` for one pair once both
prices are known (stat_arbitrage.hpp lines 899-910):
`spread = price1 - pd.beta * price2`, update the three windows, and when the
medium window is full recompute its statistics.  No statement anywhere in
`stat_arbitrage.hpp` assigns `PairData::beta` after its member initializer
(the only occurrences of `beta` in the file are its declaration at line 165 and
the read at line 901), so the signal-generation code, which never mentions
`beta`, is not needed to track it. -/
def pairTickStep (pd : PairData) (price1 price2 : ℚ) : PairData :=
  let spread := price1 - pd.beta * price2
  let pd1 := update_spread_history pd spread
  calculate_spread_statistics pd1

/-- Pair state after a sequence of ticks (pairs of simultaneous prices of the
two legs). -/
def pairTicks (pd : PairData) (prices : List (ℚ × ℚ)) : PairData :=
  prices.foldl (fun acc pr => pairTickStep acc pr.1 pr.2) pd

/-- Per-period returns of a price series: `r_i = p_i / p_{i-1} - 1`. -/
def returnsOf : List ℚ → List ℚ
  | [] => []
  | [_] => []
  | p0 :: p1 :: rest => (p1 / p0 - 1) :: returnsOf (p1 :: rest)

/-- Ordinary-least-squares slope of `ys` against `xs`:
`Σ(y-ȳ)(x-x̄) / Σ(x-x̄)²`. -/
def olsSlope (ys xs : List ℚ) : ℚ :=
  let n : ℚ := (xs.length : ℚ)
  let mx := xs.sum / n
  let my := ys.sum / n
  let cov := ((ys.zip xs).map fun pr => (pr.1 - my) * (pr.2 - mx)).sum
  let varx := (xs.map fun x => (x - mx) * (x - mx)).sum
  cov / varx

/-- Clamp a value into a closed interval. -/
def clampQ (x lo hi : ℚ) : ℚ := max lo (min hi x)

/-- Modelled from the spec: "β is recomputed periodically from returns of A and B
over the medium window via ordinary least squares, clamped to [0.5, 2.0]".
This is the spec-side definition used only to compare against what the source
actually computes (the source never recomputes β at all). -/
def specBetaOLSClamped (pricesA pricesB : List ℚ) : ℚ :=
  clampQ (olsSlope (returnsOf pricesA) (returnsOf pricesB)) (1 / 2) 2

/-- Loop state of `PerformanceAnalyzer::calculate_max_drawdown`
(performance_analyzer.cpp lines 91-118): the running maximum drawdown, the running
peak, the recorded duration, and the current run of non-peak steps.  The source
keeps the durations in `double`s, hence `ℚ` here. -/
structure DDState where
  max_dd : ℚ
  peak : ℚ
  max_duration : ℚ
  current_duration : ℚ

/-- Loop body of `PerformanceAnalyzer::calculate_max_drawdown` for one curve
point: a point above the peak resets the current run; otherwise the run grows by
one and the relative drawdown `(peak - c) / peak` is compared against the maximum,
recording the current run as the duration whenever the maximum strictly improves. -/
def ddStep (s : DDState) (c : ℚ) : DDState :=
  if s.peak < c then
    { s with peak := c, current_duration := 0 }
  else
    let cur := s.current_duration + 1
    let dd := (s.peak - c) / s.peak
    if s.max_dd < dd then
      { max_dd := dd, peak := s.peak, max_duration := cur, current_duration := cur }
    else
      { s with current_duration := cur }

/-- `PerformanceAnalyzer::calculate_max_drawdown` (performance_analyzer.cpp
lines 91-118): returns `(max_dd, duration)`; curves of fewer than two points give
`(0, 0)`; otherwise the loop starts from the first point as peak and scans the
rest. -/
def calculate_max_drawdown (curve : List ℚ) : ℚ × ℚ :=
  match curve with
  | [] => (0, 0)
  | [_] => (0, 0)
  | c0 :: rest =>
    let final := rest.foldl ddStep
      { max_dd := 0, peak := c0, max_duration := 0, current_duration := 0 }
    (final.max_dd, final.max_duration)

/-- Maximum of a list of rationals against a base of 0 (spec-side helper for
"the maximum over the curve"). -/
def maxListQ (l : List ℚ) : ℚ := l.foldl max 0

/-- Spec-side list of per-point relative drawdowns `(peak - c) / peak` against the
running peak, for the points after the first. -/
def relDrawdowns (peak : ℚ) : List ℚ → List ℚ
  | [] => []
  | c :: rest =>
    let p := max peak c
    ((p - c) / p) :: relDrawdowns p rest

/-- Spec-side list of per-point absolute drawdowns `peak - c` against the running
peak (the claim's "running peak minus current value"). -/
def absDrawdowns (peak : ℚ) : List ℚ → List ℚ
  | [] => []
  | c :: rest =>
    let p := max peak c
    (p - c) :: absDrawdowns p rest

/-- Spec-side run lengths: for each point after the first, the number of
consecutive points ending there that did not set a new running peak (a new peak
resets the run to 0). -/
def nonPeakRunLengths (peak run : ℚ) : List ℚ → List ℚ
  | [] => []
  | c :: rest =>
    if peak < c then 0 :: nonPeakRunLengths c 0 rest
    else (run + 1) :: nonPeakRunLengths peak (run + 1) rest

/-- Index of the first occurrence of a value in a list (length of the list when
absent). -/
def firstIdxEq (x : ℚ) : List ℚ → ℕ
  | [] => 0
  | y :: l => if y = x then 0 else firstIdxEq x l + 1

/-- Spec-side maximum drawdown as the claim states the value, corrected to the
relative form the analyzer computes: the maximum over the curve of
(running peak minus current value) divided by the running peak. -/
def specRelMaxDrawdown (curve : List ℚ) : ℚ :=
  match curve with
  | [] => 0
  | c0 :: rest => maxListQ (relDrawdowns c0 rest)

/-- Spec-side maximum drawdown exactly as the claim states the value: the maximum
over the curve of (running peak minus current value). -/
def specAbsMaxDrawdown (curve : List ℚ) : ℚ :=
  match curve with
  | [] => 0
  | c0 :: rest => maxListQ (absDrawdowns c0 rest)

/-- Spec-side duration exactly as the claim states it: the length of the longest
run of consecutive non-peak points in the curve. -/
def specLongestNonPeakRun (curve : List ℚ) : ℚ :=
  match curve with
  | [] => 0
  | c0 :: rest => maxListQ (nonPeakRunLengths c0 0 rest)

/-- Spec-side duration as the analyzer actually reports it: the run of
consecutive non-peak points ending at the first point where the maximum relative
drawdown is attained, and 0 when the maximum drawdown is 0. -/
def specDurationAtFirstMax (curve : List ℚ) : ℚ :=
  match curve with
  | [] => 0
  | c0 :: rest =>
    let ds := relDrawdowns c0 rest
    let m := maxListQ ds
    if m ≤ 0 then 0 else (nonPeakRunLengths c0 0 rest).getD (firstIdxEq m ds) 0

/-- Concrete portfolio holding 5 shares of AAPL at total cost 500, no cash. -/
def examplePortfolio : Portfolio :=
  { cash := 0,
    positions := fun s => if s = "AAPL" then some { quantity := 5, cost := 500 } else none,
    trades := [], trade_count := 0 }

/-- Concrete EXIT signal for AAPL at price 100. -/
def exitSignalAAPL : Signal :=
  { symbol := "AAPL", type := SignalType.EXIT, strength := 1, price := 100 }

/-- Concrete SELL order for 3 shares of AAPL at price 10. -/
def sellOrder3 : Order :=
  { symbol := "AAPL", side := OrderSide.SELL, type := OrderType.MARKET,
    quantity := 3, price := 10 }

/-- Concrete portfolio with cash 1000 holding 5 shares of AAPL at total cost 500
(average cost 100 per share). -/
def c4Portfolio : Portfolio :=
  { cash := 1000,
    positions := fun s => if s = "AAPL" then some { quantity := 5, cost := 500 } else none,
    trades := [], trade_count := 0 }

/-- Concrete SELL order for the full 5-share AAPL position at sale price 110. -/
def c4SellOrder : Order :=
  { symbol := "AAPL", side := OrderSide.SELL, type := OrderType.MARKET,
    quantity := 5, price := 110 }

/-- Concrete portfolio holding 10 shares of ACME at total cost 1000. -/
def c5Portfolio : Portfolio :=
  { cash := 0,
    positions := fun s => if s = "ACME" then some { quantity := 10, cost := 1000 } else none,
    trades := [], trade_count := 0 }

/-- Portfolio with starting cash 10000 (scenario S1 of the spec). -/
def s1Portfolio : Portfolio := Portfolio.init.set_cash 10000

/-- BUY order for 10 shares of AAPL at price 100 (scenario S1 of the spec). -/
def s1BuyOrder : Order :=
  { symbol := "AAPL", side := OrderSide.BUY, type := OrderType.MARKET,
    quantity := 10, price := 100 }

/-- A capacity-4 ring after three accepted pushes. -/
def c2queue : LockFreeQueue ℕ 4 := ((LockFreeQueue.init ℕ 4).pushAll [1, 2, 3]).1

/-- Concrete equity curve: drop to 80 (relative drawdown 1/5 after a 2-step run),
recovery that ties but does not exceed the 100 peak, then a long shallow decline
(a 7-step run of non-peak points with small drawdowns). -/
def c9curve : List ℚ := [100, 90, 80, 100, 99, 98, 97, 96]

/-- Three distinguishable concrete ticks. -/
def c10Ticks : List MarketData :=
  [{ symbol := "A", price := 1, volume := 1, timestamp := 1 },
   { symbol := "B", price := 2, volume := 1, timestamp := 2 },
   { symbol := "C", price := 3, volume := 1, timestamp := 3 }]

/-! Theorems. -/

/-- Claim C2, counterexample: the ring rejects a push while it holds only
`Capacity - 1 = 3` items, not `Capacity = 4` as claimed; pushing five items
back-to-back into an empty ring of capacity 4 yields three accepted pushes and
rejections on the 4th and 5th, not four accepted and a rejection on the 5th. -/
theorem ring_capacity_four_rejects_fourth_push_cex :
    ((LockFreeQueue.init ℕ 4).pushAll [1, 2, 3, 4, 5]).2 =
      [true, true, true, false, false] ∧
    (((LockFreeQueue.init ℕ 4).pushAll [1, 2, 3]).1).size = 3 ∧
    ((((LockFreeQueue.init ℕ 4).pushAll [1, 2, 3]).1).push 4).2 = false ∧
    (3 : ℕ) ≠ 4 := by
  refine ⟨?_, ?_, ?_, by decide⟩ <;> decide

/-- Claim C2, amended: `push` returns rejected exactly when the ring currently
holds `Capacity - 1` items (the slot-sacrificing full test `(tail + 1) % Capacity
== head`); consequently a capacity-4 ring accepts only 3 back-to-back pushes. -/
theorem push_rejected_iff_ring_holds_capacity_minus_one {α : Type} {N : ℕ}
    (q : LockFreeQueue α N) (x : α) (hh : q.head < N) (ht : q.tail < N) :
    ((q.push x).2 = false) ↔ q.size = N - 1 := by
  have hp : ((q.push x).2 = false) ↔ (q.tail + 1) % N = q.head := by
    unfold LockFreeQueue.push
    dsimp only
    split_ifs with h
    · simp [h]
    · simp [h]
  rw [hp]
  unfold LockFreeQueue.size
  rcases Nat.lt_or_ge (q.tail + 1) N with h1 | h1
  · rw [Nat.mod_eq_of_lt h1]
    split_ifs with h2 <;> omega
  · have h2 : q.tail + 1 = N := by omega
    rw [h2, Nat.mod_self]
    split_ifs with h3 <;> omega

/-- Claim C2, witness for the amended theorem at a concrete ring: after three
accepted pushes into a capacity-4 ring, a push is rejected iff the ring holds
3 items (which it does). -/
theorem push_rejected_iff_ring_holds_capacity_minus_one_witness :
    ((c2queue.push 7).2 = false) ↔ c2queue.size = 4 - 1 :=
  push_rejected_iff_ring_holds_capacity_minus_one c2queue 7 (by decide) (by decide)

/-- Helper for claim C10: exact characterization of the batch-collection loop.
With `k` pushes still allowed (`acc.length + k = batchSize`) and more than `k`
ticks queued, the loop appends exactly the next `k` ticks to the batch and
additionally pops (and discards) one further tick. -/
theorem collectBatch_spec (batchSize : ℕ) :
    ∀ (q acc : List MarketData) (k : ℕ), acc.length + k = batchSize →
      k < q.length →
      collectBatch batchSize q acc = (acc ++ q.take k, q.drop (k + 1)) := by
  intro q
  induction q with
  | nil => intro acc k _ hq; simp at hq
  | cons d rest IH =>
    intro acc k hk hq
    cases k with
    | zero =>
      have hlen : ¬ acc.length < batchSize := by omega
      simp [collectBatch, hlen]
    | succ k' =>
      have hlen : acc.length < batchSize := by omega
      have hstep := IH (acc ++ [d]) k' (by simp; omega) (by simpa using hq)
      simp only [collectBatch, hlen, if_pos, hstep]
      simp [List.append_assoc]

/-- Claim C10 (confirmed): whenever the tick queue holds more than `batch_size`
ticks, the strategy worker's batch-collection loop removes `batch_size + 1` ticks
from the queue but the collected batch is only the first `batch_size` of them;
the `(batch_size + 1)`-th popped tick is in neither the batch nor the queue. -/
theorem strategy_batch_pops_and_discards (batchSize : ℕ) (queue : List MarketData)
    (h : batchSize < queue.length) :
    collectBatch batchSize queue [] = (queue.take batchSize, queue.drop (batchSize + 1)) ∧
    queue.length - (queue.drop (batchSize + 1)).length = batchSize + 1 ∧
    (queue.take batchSize).length = batchSize := by
  refine ⟨?_, ?_, ?_⟩
  · simpa using collectBatch_spec batchSize queue [] batchSize (by simp) h
  · simp [List.length_drop]; omega
  · simp [List.length_take]; omega

/-- Claim C10, witness: with batch size 2 and three queued ticks the loop returns
the first two ticks as the batch and leaves the queue empty — the third tick was
popped and discarded. -/
theorem strategy_batch_pops_and_discards_witness :
    (2 : ℕ) < c10Ticks.length ∧
    (collectBatch 2 c10Ticks [] = (c10Ticks.take 2, c10Ticks.drop 3) ∧
     c10Ticks.length - (c10Ticks.drop 3).length = 3 ∧
     (c10Ticks.take 2).length = 2) :=
  ⟨by decide, strategy_batch_pops_and_discards 2 c10Ticks (by decide)⟩

/-- Claim C1, counterexample: an EXIT signal for a symbol with a positive
position (5 shares of AAPL) produces no order at all, although the claim requires
a SELL order for 5 shares. -/
theorem exit_signal_produces_no_order_cex :
    signalToOrder examplePortfolio exitSignalAAPL = none ∧
    examplePortfolio.get_position "AAPL" = 5 ∧ (0 : ℤ) < 5 := by
  refine ⟨rfl, rfl, by norm_num⟩

/-- Claim C1, amended: the engine's strategy worker ignores EXIT signals
entirely — its signal-conversion chain handles only BUY and SELL, so a signal of
kind EXIT produces no order regardless of the symbol's current position. -/
theorem exit_signals_ignored (p : Portfolio) (s : Signal)
    (h : s.type = SignalType.EXIT) : signalToOrder p s = none := by
  simp [signalToOrder, h]

/-- Claim C1, witness for the amended theorem: the concrete EXIT signal above is
ignored. -/
theorem exit_signals_ignored_witness :
    signalToOrder examplePortfolio exitSignalAAPL = none :=
  exit_signals_ignored examplePortfolio exitSignalAAPL rfl

/-- Claim C4 (code bug): executing a SELL of the whole 5-share AAPL lot
(average cost 100) at sale price 110 from prior cash 1000 appends a SELL trade
whose recorded price is `cash / quantity = (1000 + 550) / 5 = 310` — not the
per-share sale price 110 — and whose recorded profit is `1550 - 500 = 1050`,
not the lot's realized P&L `5 * (110 - 100) = 50`. -/
theorem sell_trade_records_cash_quotient_not_sale_price :
    (applyOrder c4Portfolio c4SellOrder).1.trades =
      [{ symbol := "AAPL", side := "SELL", quantity := 5,
         price := 310, cost := 500, profit := 1050 }] ∧
    c4SellOrder.price = 110 ∧
    (310 : ℚ) ≠ 110 ∧
    (1050 : ℚ) ≠ (c4SellOrder.quantity : ℚ) *
      (c4SellOrder.price -
        c4Portfolio.get_position_cost "AAPL" / (c4Portfolio.get_position "AAPL" : ℚ)) := by
  refine ⟨?_, by norm_num [c4SellOrder], by norm_num, ?_⟩
  · norm_num [applyOrder, c4Portfolio, c4SellOrder, Portfolio.get_position,
      Portfolio.add_cash, Portfolio.reduce_position]
  · norm_num [c4Portfolio, c4SellOrder, Portfolio.get_position, Portfolio.get_position_cost]

/-- Claim C5 (confirmed): selling `k` of `q` held shares (`0 < k < q`) of a
position with total cost `c` leaves `q - k` shares at remaining cost
`c (q - k) / q`, so the remaining average cost per share equals the pre-call
average cost `c / q` — exact arithmetic. -/
theorem partial_sell_preserves_average_cost (p : Portfolio) (sym : String)
    (q : ℤ) (c : ℚ) (k : ℤ)
    (hfind : p.positions sym = some { quantity := q, cost := c })
    (h0 : 0 < k) (hk : k < q) :
    (p.reduce_position sym k).get_position sym = q - k ∧
    (p.reduce_position sym k).get_position_cost sym = c * ((q : ℚ) - (k : ℚ)) / (q : ℚ) ∧
    (p.reduce_position sym k).get_position_cost sym /
        (((p.reduce_position sym k).get_position sym : ℤ) : ℚ) = c / (q : ℚ) := by
  have hq0 : (q : ℚ) ≠ 0 := by
    exact_mod_cast (by omega : q ≠ 0)
  have hqk : (q : ℚ) - (k : ℚ) ≠ 0 := by
    have : ((q - k : ℤ) : ℚ) ≠ 0 := by exact_mod_cast (by omega : q - k ≠ 0)
    push_cast at this
    exact this
  have hpos : ¬ (q - k ≤ 0) := by omega
  have hget : (p.reduce_position sym k).get_position sym = q - k := by
    simp [Portfolio.reduce_position, hfind, Portfolio.get_position, hpos]
  have hcost : (p.reduce_position sym k).get_position_cost sym
      = c * ((q : ℚ) - (k : ℚ)) / (q : ℚ) := by
    simp [Portfolio.reduce_position, hfind, Portfolio.get_position_cost, hpos]
    field_simp
    ring
  refine ⟨hget, hcost, ?_⟩
  rw [hget, hcost]
  push_cast
  field_simp
  ring

/-- Claim C5, witness: selling 4 of 10 ACME shares held at total cost 1000
leaves 6 shares at cost 600, average cost 100 both before and after. -/
theorem partial_sell_preserves_average_cost_witness :
    (c5Portfolio.reduce_position "ACME" 4).get_position "ACME" = 10 - 4 ∧
    (c5Portfolio.reduce_position "ACME" 4).get_position_cost "ACME"
      = 1000 * ((10 : ℚ) - (4 : ℚ)) / (10 : ℚ) ∧
    (c5Portfolio.reduce_position "ACME" 4).get_position_cost "ACME" /
        (((c5Portfolio.reduce_position "ACME" 4).get_position "ACME" : ℤ) : ℚ)
      = 1000 / (10 : ℚ) :=
  partial_sell_preserves_average_cost c5Portfolio "ACME" 10 1000 4 rfl
    (by decide) (by decide)

/-- Helper: `reduce_position` never changes cash (it only books the trade and
updates the position map). -/
theorem reduce_position_cash (p : Portfolio) (sym : String) (qty : ℤ) :
    (p.reduce_position sym qty).cash = p.cash := by
  cases h : p.positions sym <;> simp [Portfolio.reduce_position, h]

/-- Helper: a strictly positive `get_position` means the map holds a position of
exactly that quantity. -/
theorem positions_eq_of_get_position_pos (p : Portfolio) (sym : String)
    (h : 0 < p.get_position sym) :
    ∃ pos : Position, p.positions sym = some pos ∧ pos.quantity = p.get_position sym := by
  unfold Portfolio.get_position at h ⊢
  cases hf : p.positions sym with
  | none => simp [hf] at h
  | some pos => exact ⟨pos, rfl, rfl⟩

/-- Claim C3 (confirmed): for a SELL order with positive quantity popped by the
execution worker, writing `held` for the symbol's current position: when
`held ≥ qty` the fill adds proceeds `price * qty` to cash, reduces the position
by `qty`, and the callback receives the order unchanged; when `0 < held < qty`
the fill is for `held` shares (proceeds `price * held`, position emptied) and the
callback receives the order with its quantity modified to `held`; when
`held = 0` the order is dropped with no portfolio change and no callback. -/
theorem sell_execution_reconciliation (p : Portfolio) (o : Order)
    (hside : o.side = OrderSide.SELL) (hq : 0 < o.quantity) :
    (o.quantity ≤ p.get_position o.symbol →
      (applyOrder p o).2 = some o ∧
      (applyOrder p o).1.cash = p.cash + o.price * (o.quantity : ℚ) ∧
      (applyOrder p o).1.get_position o.symbol = p.get_position o.symbol - o.quantity) ∧
    (0 < p.get_position o.symbol → p.get_position o.symbol < o.quantity →
      (applyOrder p o).2 = some { o with quantity := p.get_position o.symbol } ∧
      (applyOrder p o).1.cash = p.cash + o.price * (p.get_position o.symbol : ℚ) ∧
      (applyOrder p o).1.get_position o.symbol = 0) ∧
    (p.get_position o.symbol = 0 → applyOrder p o = (p, none)) := by
  refine ⟨?_, ?_, ?_⟩
  · intro hheld
    have hpos : 0 < p.get_position o.symbol := lt_of_lt_of_le hq hheld
    obtain ⟨pos, hfind, hposq⟩ := positions_eq_of_get_position_pos p o.symbol hpos
    simp only [applyOrder, hside]
    rw [if_pos hheld]
    refine ⟨rfl, ?_, ?_⟩
    · rw [reduce_position_cash]
      simp [Portfolio.add_cash]
    · have hfind2 : (p.add_cash (o.price * (o.quantity : ℚ))).positions o.symbol
        = some pos := hfind
      have hh2 : o.quantity ≤ pos.quantity := by omega
      rw [← hposq]
      simp only [Portfolio.reduce_position, hfind2]
      by_cases hz : pos.quantity - o.quantity ≤ 0
      · simp [Portfolio.get_position, hz]
        omega
      · simp [Portfolio.get_position, hz]
  · intro hpos hheld
    obtain ⟨pos, hfind, hposq⟩ := positions_eq_of_get_position_pos p o.symbol hpos
    simp only [applyOrder, hside]
    rw [if_neg (by omega), if_pos hpos]
    refine ⟨rfl, ?_, ?_⟩
    · rw [reduce_position_cash]
      simp [Portfolio.add_cash]
    · have hfind3 : (p.add_cash (o.price * ((pos.quantity : ℤ) : ℚ))).positions o.symbol
        = some pos := hfind
      rw [← hposq]
      simp only [Portfolio.reduce_position, hfind3]
      have hz : pos.quantity - pos.quantity ≤ 0 := by omega
      simp [Portfolio.get_position, hz]
  · intro hzero
    simp only [applyOrder, hside]
    rw [if_neg (by omega), if_neg (by omega)]

/-- Claim C3, witness: selling 3 of the 5 held AAPL shares at price 10 fires the
callback with the unchanged order, adds proceeds 30, and leaves position 2. -/
theorem sell_execution_reconciliation_witness :
    (applyOrder examplePortfolio sellOrder3).2 = some sellOrder3 ∧
    (applyOrder examplePortfolio sellOrder3).1.cash =
      examplePortfolio.cash + sellOrder3.price * (sellOrder3.quantity : ℚ) ∧
    (applyOrder examplePortfolio sellOrder3).1.get_position sellOrder3.symbol =
      examplePortfolio.get_position sellOrder3.symbol - sellOrder3.quantity :=
  (sell_execution_reconciliation examplePortfolio sellOrder3 rfl (by decide)).1 (by decide)

/-- Helper for claim C6: one applied order preserves the equality between
`trade_count` and the trade-log length (every executed fill appends exactly one
trade and increments the counter once; skipped orders touch neither). -/
theorem applyOrder_preserves_trade_count (p : Portfolio) (o : Order)
    (hq : 0 < o.quantity) (h : p.trade_count = (p.trades.length : ℤ)) :
    (applyOrder p o).1.trade_count = ((applyOrder p o).1.trades.length : ℤ) := by
  cases hside : o.side
  case BUY =>
    simp only [applyOrder, hside]
    split_ifs with hc
    · simp [Portfolio.add_position, Portfolio.reduce_cash, h]
    · exact h
  case SELL =>
    simp only [applyOrder, hside]
    split_ifs with h1 h2
    · have hpos : 0 < p.get_position o.symbol := lt_of_lt_of_le hq h1
      obtain ⟨pos, hfind, -⟩ := positions_eq_of_get_position_pos p o.symbol hpos
      have hfind2 : (p.add_cash (o.price * (o.quantity : ℚ))).positions o.symbol
        = some pos := hfind
      simp [Portfolio.reduce_position, Portfolio.add_cash, hfind, hfind2]
      omega
    · obtain ⟨pos, hfind, -⟩ := positions_eq_of_get_position_pos p o.symbol h2
      have hfind2 : (p.add_cash (o.price * (p.get_position o.symbol : ℚ))).positions o.symbol
        = some pos := hfind
      simp [Portfolio.reduce_position, Portfolio.add_cash, hfind, hfind2]
      omega
    · exact h

/-- Claim C6 (confirmed): starting from a portfolio where `trade_count` equals
the trade-log length, after the execution worker applies any sequence of
positive-quantity orders — executed BUYs, full SELLs, reconciled partial SELLs,
or skipped orders — `trade_count` still equals the trade-log length. -/
theorem trade_count_equals_trade_log_length (p : Portfolio) (orders : List Order)
    (hq : ∀ o ∈ orders, 0 < o.quantity)
    (h : p.trade_count = (p.trades.length : ℤ)) :
    (applyOrders p orders).trade_count = ((applyOrders p orders).trades.length : ℤ) := by
  induction orders generalizing p with
  | nil => simpa [applyOrders] using h
  | cons o os IH =>
    have h1 := applyOrder_preserves_trade_count p o (hq o (by simp)) h
    have h2 := IH (applyOrder p o).1 (fun o' ho' => hq o' (by simp [ho'])) h1
    simpa [applyOrders, List.foldl_cons] using h2

/-- Claim C6, witness: after the S1 fill (BUY 10 AAPL at 100 from cash 10000)
`trade_count` equals the trade-log length. -/
theorem trade_count_equals_trade_log_length_witness :
    (applyOrders s1Portfolio [s1BuyOrder]).trade_count =
      ((applyOrders s1Portfolio [s1BuyOrder]).trades.length : ℤ) :=
  trade_count_equals_trade_log_length s1Portfolio [s1BuyOrder]
    (by decide) (by decide)

/-- Helper for claim C7: one applied order keeps cash non-negative — a BUY is
executed only when `cash ≥ cost` and deducts exactly `cost`; a SELL adds
non-negative proceeds; skipped orders leave cash unchanged. -/
theorem applyOrder_cash_nonneg (p : Portfolio) (o : Order) (hc : 0 ≤ p.cash)
    (hp : 0 ≤ o.price) (hq : 0 < o.quantity) : 0 ≤ (applyOrder p o).1.cash := by
  cases hside : o.side
  case BUY =>
    simp only [applyOrder, hside]
    split_ifs with h1
    · simp only [Portfolio.add_position, Portfolio.reduce_cash]
      linarith
    · exact hc
  case SELL =>
    simp only [applyOrder, hside]
    split_ifs with h1 h2
    · rw [reduce_position_cash]
      have hqq : (0 : ℚ) ≤ (o.quantity : ℚ) := by exact_mod_cast hq.le
      have := mul_nonneg hp hqq
      simp only [Portfolio.add_cash]
      linarith
    · rw [reduce_position_cash]
      have hqq : (0 : ℚ) ≤ (p.get_position o.symbol : ℚ) := by exact_mod_cast h2.le
      have := mul_nonneg hp hqq
      simp only [Portfolio.add_cash]
      linarith
    · exact hc

/-- Claim C7 (confirmed): starting from non-negative cash, applying any
sequence of orders with non-negative prices and positive quantities through the
execution worker keeps cash non-negative after every fill (BUYs execute only
when `cash ≥ price * qty`; SELL proceeds are non-negative; oversell
reconciliation only shrinks the sold quantity). -/
theorem cash_nonnegative_under_fills (p : Portfolio) (orders : List Order)
    (hc : 0 ≤ p.cash)
    (h : ∀ o ∈ orders, 0 ≤ o.price ∧ 0 < o.quantity) :
    0 ≤ (applyOrders p orders).cash := by
  induction orders generalizing p with
  | nil => simpa [applyOrders] using hc
  | cons o os IH =>
    have h1 := applyOrder_cash_nonneg p o hc (h o (by simp)).1 (h o (by simp)).2
    have h2 := IH (applyOrder p o).1 h1 (fun o' ho' => h o' (by simp [ho']))
    simpa [applyOrders, List.foldl_cons] using h2

/-- Claim C7, witness: cash stays non-negative through the S1 fill. -/
theorem cash_nonnegative_under_fills_witness :
    0 ≤ (applyOrders s1Portfolio [s1BuyOrder]).cash :=
  cash_nonnegative_under_fills s1Portfolio [s1BuyOrder] (by decide) (by decide)

/-- Helper for claim C8: one spread-processing step leaves the hedge ratio
untouched (neither the window update nor the statistics recompute writes
`beta`). -/
theorem pairTickStep_beta (pd : PairData) (a b : ℚ) :
    (pairTickStep pd a b).beta = pd.beta := by
  simp only [pairTickStep, calculate_spread_statistics, update_spread_history]
  split_ifs <;> rfl

/-- Helper for claim C8: processing any tick sequence leaves the hedge ratio
untouched. -/
theorem pairTicks_beta (prices : List (ℚ × ℚ)) :
    ∀ pd : PairData, (pairTicks pd prices).beta = pd.beta := by
  induction prices with
  | nil => intro pd; rfl
  | cons pr rest IH =>
    intro pd
    have h := IH (pairTickStep pd pr.1 pr.2)
    simp only [pairTicks, List.foldl_cons] at h ⊢
    rw [h, pairTickStep_beta]

/-- Claim C8, counterexample: after three ticks of a pair whose return series
has ordinary-least-squares slope 3 (clamped value 2), the hedge ratio the code
uses is still its initial 1.0; it was never recomputed, so the spread is computed
with β = 1 ≠ 2. -/
theorem beta_never_recomputed_cex :
    (pairTicks initPairData [(1, 1), (2, 2), (1, 3)]).beta = 1 ∧
    specBetaOLSClamped [1, 2, 1] [1, 2, 3] = 2 ∧
    (1 : ℚ) ≠ 2 := by
  refine ⟨?_, ?_, by norm_num⟩
  · rw [pairTicks_beta]; rfl
  · norm_num [specBetaOLSClamped, clampQ, olsSlope, returnsOf, min_def, max_def]

/-- Claim C8, amended: the hedge ratio β used to compute
`spread = price_A − β·price_B` in the stat-arb core is a per-pair constant: it is
member-initialized to 1.0 and no tick processing ever recomputes or clamps it. -/
theorem beta_constant_under_processing (pd : PairData) (prices : List (ℚ × ℚ)) :
    (pairTicks pd prices).beta = pd.beta ∧ (pairTicks initPairData prices).beta = 1 :=
  ⟨pairTicks_beta prices pd, pairTicks_beta prices initPairData⟩

/-- Helper: the base of a max-fold is a lower bound of its result. -/
theorem le_foldl_max (l : List ℚ) : ∀ b : ℚ, b ≤ l.foldl max b := by
  induction l with
  | nil => intro b; simp
  | cons c rest IH =>
    intro b
    simp only [List.foldl_cons]
    exact le_trans (le_max_left b c) (IH (max b c))

/-- Helper for claim C9: the `max_dd` component of the analyzer's fold equals
the max-fold of the per-point relative drawdowns, for any positive starting
state. -/
theorem ddFold_max_dd (l : List ℚ) : ∀ m pk md cd : ℚ, 0 < pk → 0 ≤ m →
    (∀ x ∈ l, 0 < x) →
    (l.foldl ddStep ⟨m, pk, md, cd⟩).max_dd = (relDrawdowns pk l).foldl max m := by
  induction l with
  | nil => intro m pk md cd _ _ _; rfl
  | cons c rest IH =>
    intro m pk md cd hpk hm hl
    have hc : 0 < c := hl c (by simp)
    have hrest : ∀ x ∈ rest, 0 < x := fun x hx => hl x (by simp [hx])
    simp only [List.foldl_cons, relDrawdowns]
    by_cases hgt : pk < c
    · rw [max_eq_right hgt.le]
      have hstep : ddStep ⟨m, pk, md, cd⟩ c = ⟨m, c, md, 0⟩ := by
        simp [ddStep, hgt]
      rw [hstep, IH m c md 0 hc hm hrest]
      have h0 : (c - c) / c = 0 := by simp
      rw [h0, max_eq_left hm]
    · have hle : c ≤ pk := le_of_not_lt hgt
      rw [max_eq_left hle]
      have hdd0 : 0 ≤ (pk - c) / pk := div_nonneg (by linarith) hpk.le
      by_cases himp : m < (pk - c) / pk
      · have hstep : ddStep ⟨m, pk, md, cd⟩ c = ⟨(pk - c) / pk, pk, cd + 1, cd + 1⟩ := by
          simp [ddStep, hgt, himp]
        rw [hstep, IH _ _ _ _ hpk hdd0 hrest, max_eq_right himp.le]
      · have hstep : ddStep ⟨m, pk, md, cd⟩ c = ⟨m, pk, md, cd + 1⟩ := by
          simp [ddStep, hgt, himp]
        rw [hstep, IH _ _ _ _ hpk hm hrest, max_eq_left (le_of_not_lt himp)]

/-- Helper for claim C9: the `max_duration` component of the analyzer's fold is
the non-peak run length at the first point attaining the maximal relative
drawdown (the starting duration when the maximum never improves). -/
theorem ddFold_duration (l : List ℚ) : ∀ m pk md cd : ℚ, 0 < pk → 0 ≤ m →
    (∀ x ∈ l, 0 < x) →
    (l.foldl ddStep ⟨m, pk, md, cd⟩).max_duration =
      (if (relDrawdowns pk l).foldl max m ≤ m then md
       else (nonPeakRunLengths pk cd l).getD
         (firstIdxEq ((relDrawdowns pk l).foldl max m) (relDrawdowns pk l)) 0) := by
  induction l with
  | nil => intro m pk md cd _ _ _; simp [relDrawdowns, nonPeakRunLengths]
  | cons c rest IH =>
    intro m pk md cd hpk hm hl
    have hc : 0 < c := hl c (by simp)
    have hrest : ∀ x ∈ rest, 0 < x := fun x hx => hl x (by simp [hx])
    simp only [List.foldl_cons, relDrawdowns, nonPeakRunLengths]
    by_cases hgt : pk < c
    · rw [max_eq_right hgt.le, if_pos hgt]
      have hstep : ddStep ⟨m, pk, md, cd⟩ c = ⟨m, c, md, 0⟩ := by
        simp [ddStep, hgt]
      have h0 : (c - c) / c = 0 := by simp
      rw [hstep, IH m c md 0 hc hm hrest, h0, max_eq_left hm]
      by_cases hM : (relDrawdowns c rest).foldl max m ≤ m
      · rw [if_pos hM, if_pos hM]
      · rw [if_neg hM, if_neg hM]
        have hMpos : 0 < (relDrawdowns c rest).foldl max m := by
          have := le_foldl_max (relDrawdowns c rest) m
          push_neg at hM
          linarith
        have hne : ¬ ((0 : ℚ) = (relDrawdowns c rest).foldl max m) := by linarith
        simp only [firstIdxEq, if_neg hne, List.getD_cons_succ]
    · have hle : c ≤ pk := le_of_not_lt hgt
      rw [max_eq_left hle, if_neg hgt]
      have hdd0 : 0 ≤ (pk - c) / pk := div_nonneg (by linarith) hpk.le
      by_cases himp : m < (pk - c) / pk
      · have hstep : ddStep ⟨m, pk, md, cd⟩ c = ⟨(pk - c) / pk, pk, cd + 1, cd + 1⟩ := by
          simp [ddStep, hgt, himp]
        rw [hstep, IH _ _ _ _ hpk hdd0 hrest, max_eq_right himp.le]
        have hMdd : (pk - c) / pk ≤ (relDrawdowns pk rest).foldl max ((pk - c) / pk) :=
          le_foldl_max _ _
        have hnotm : ¬ ((relDrawdowns pk rest).foldl max ((pk - c) / pk) ≤ m) := by
          push_neg
          linarith
        rw [if_neg hnotm]
        by_cases hM : (relDrawdowns pk rest).foldl max ((pk - c) / pk) ≤ (pk - c) / pk
        · have hMeq : (relDrawdowns pk rest).foldl max ((pk - c) / pk) = (pk - c) / pk :=
            le_antisymm hM hMdd
          rw [if_pos hM, hMeq]
          simp [firstIdxEq]
        · rw [if_neg hM]
          have hne : ¬ ((pk - c) / pk = (relDrawdowns pk rest).foldl max ((pk - c) / pk)) := by
            push_neg at hM
            linarith
          simp only [firstIdxEq, if_neg hne, List.getD_cons_succ]
      · have hddle : (pk - c) / pk ≤ m := le_of_not_lt himp
        have hstep : ddStep ⟨m, pk, md, cd⟩ c = ⟨m, pk, md, cd + 1⟩ := by
          simp [ddStep, hgt, himp]
        rw [hstep, IH _ _ _ _ hpk hm hrest, max_eq_left hddle]
        by_cases hM : (relDrawdowns pk rest).foldl max m ≤ m
        · rw [if_pos hM, if_pos hM]
        · rw [if_neg hM, if_neg hM]
          have hne : ¬ ((pk - c) / pk = (relDrawdowns pk rest).foldl max m) := by
            push_neg at hM
            linarith
          simp only [firstIdxEq, if_neg hne, List.getD_cons_succ]

/-- Claim C9, counterexample: on the curve `[100, 90, 80, 100, 99, 98, 97, 96]`
the analyzer returns max drawdown `1/5` — the relative drawdown `(100-80)/100` —
not the claimed maximum of (running peak minus current value), which is `20`;
and it reports duration `2` (the non-peak run ending at the trough 80) — not the
claimed longest run of consecutive non-peak points, which is `7` (the points
`90, 80, 100, 99, 98, 97, 96`, none of which strictly exceeds the peak 100). -/
theorem max_drawdown_formula_cex :
    calculate_max_drawdown c9curve = (1 / 5, 2) ∧
    specAbsMaxDrawdown c9curve = 20 ∧
    specLongestNonPeakRun c9curve = 7 ∧
    ((1 : ℚ) / 5 ≠ 20 ∧ (2 : ℚ) ≠ 7) := by
  refine ⟨?_, ?_, ?_, by norm_num, by norm_num⟩
  · norm_num [calculate_max_drawdown, ddStep, c9curve]
  · norm_num [specAbsMaxDrawdown, absDrawdowns, maxListQ, c9curve, max_def]
  · norm_num [specLongestNonPeakRun, nonPeakRunLengths, maxListQ, c9curve, max_def]

/-- Claim C9, amended: for a positive equity curve the analyzer's max-drawdown
value is the maximum over the curve of (running peak minus current value)
divided by the running peak, and the duration it reports is the run of
consecutive non-peak points ending at the first point where that maximum
relative drawdown is attained (0 when the maximum drawdown is 0) — which is in
general shorter than the longest run of consecutive non-peak points. -/
theorem max_drawdown_relative_value_and_duration (curve : List ℚ)
    (hpos : ∀ x ∈ curve, 0 < x) :
    calculate_max_drawdown curve =
      (specRelMaxDrawdown curve, specDurationAtFirstMax curve) := by
  match curve with
  | [] => rfl
  | [c] => rfl
  | c0 :: c1 :: rest =>
    have hc0 : 0 < c0 := hpos c0 (by simp)
    have hrest : ∀ x ∈ c1 :: rest, 0 < x := fun x hx =>
      hpos x (List.mem_cons_of_mem c0 hx)
    have hval := ddFold_max_dd (c1 :: rest) 0 c0 0 0 hc0 le_rfl hrest
    have hdur := ddFold_duration (c1 :: rest) 0 c0 0 0 hc0 le_rfl hrest
    show (((c1 :: rest).foldl ddStep ⟨0, c0, 0, 0⟩).max_dd,
          ((c1 :: rest).foldl ddStep ⟨0, c0, 0, 0⟩).max_duration) = _
    rw [hval, hdur]
    rfl

/-- Claim C9, witness for the amended theorem at the concrete curve above:
the analyzer returns exactly the relative maximum drawdown and the run length at
its first attainment. -/
theorem max_drawdown_relative_value_and_duration_witness :
    calculate_max_drawdown c9curve =
      (specRelMaxDrawdown c9curve, specDurationAtFirstMax c9curve) :=
  max_drawdown_relative_value_and_duration c9curve (by decide)

end Winter
